import Mathlib

/-
Verification of the merge engine in `src/trakt-to-letterboxd.js`.

The program reads two JSON collections (watch events and rating events),
merges them into a single `Map` keyed by the trakt id, and projects the
merged collection into an ordered list of flat output records for CSV
export.  We embed the in-memory data model and the body of
`processTraktData` (lines 63-151) together with the `formatDate` helper
(lines 28-45), leaving the file I/O and CSV serialisation plumbing out
of scope, as the specification does.

Modelling notes:
  * A JavaScript timestamp string is represented by its parse result
    under `new Date(s)`: `DateStr.invalid` stands for a truthy string
    whose parse is `NaN` (an Invalid Date), and `DateStr.valid t` for a
    truthy string that parses to epoch-milliseconds `t`.  Absent, null
    and empty-string (all falsy, and treated identically by every use
    in the source) are `Option.none`.
  * `formatDate` extracts calendar components; the source uses the
    process-local time zone, which the specification flags as an open
    ambiguity.  We model the local zone as UTC (offset zero): the
    civil-from-days conversion below is the Gregorian calendar date of
    the epoch day.
  * The JavaScript `Map` is modelled as an association list in
    insertion order; `mapSet` on an existing key replaces the value in
    place (preserving the key's position), matching `Map.prototype.set`.
  * JavaScript truthiness defaulting (`x || ''`, `x || 0`) is modelled
    by `jsOrNat` / `jsOrInt` / `Option.getD`.
-/

namespace Trakt

/-- A trakt id is a JSON number or string; `0` and `""` are falsy. -/
inductive TraktId where
  | num (n : Int)
  | str (s : String)
deriving DecidableEq, Repr

/-- JavaScript truthiness of a trakt id value. -/
def TraktId.truthy : TraktId → Bool
  | .num n => n != 0
  | .str s => s != ""

/-- Parse result of a truthy timestamp string under `new Date`. -/
inductive DateStr where
  | invalid
  | valid (t : Int)
deriving DecidableEq, Repr

/-- The `ids` identifier block of a movie object. -/
structure Ids where
  trakt : Option TraktId
  imdb : Option String
  tmdb : Option String
deriving DecidableEq, Repr

/-- The nested `movie` object of a source record. -/
structure Movie where
  ids : Option Ids
  title : Option String
  year : Option Int
deriving DecidableEq, Repr

/-- A source watch event (entry of `watched-movies.json`). -/
structure WatchedItem where
  movie : Option Movie
  last_watched_at : Option DateStr
  plays : Option Nat
deriving DecidableEq, Repr

/-- A source rating event (entry of `ratings-movies.json`). -/
structure RatingItem where
  type : String
  movie : Option Movie
  rating : Option Nat
  rated_at : Option DateStr
deriving DecidableEq, Repr

/-- The mutable merged record stored in the `mergedMovies` map. -/
structure MovieInfo where
  traktId : TraktId
  imdbID : String
  tmdbID : String
  Title : String
  Year : Option Int
  Rating10 : Option Nat
  WatchedDate : String
  Rewatch : Bool
  lastWatchedTimestamp : Option DateStr
deriving DecidableEq, Repr

/-- A flat output record handed to the CSV writer (lines 142-151). -/
structure OutRecord where
  imdbID : String
  tmdbID : String
  Title : String
  Year : Option Int
  Rating10 : Option Nat
  WatchedDate : String
  Rewatch : String
deriving DecidableEq, Repr

/-- JavaScript `x || ''` on an optional number: `0` is falsy, so both
absent and `0` collapse to the empty string (modelled as `none`). -/
def jsOrNat : Option Nat → Option Nat
  | some n => if n = 0 then none else some n
  | none => none

/-- JavaScript `x || ''` on an optional integer (the `year` field). -/
def jsOrInt : Option Int → Option Int
  | some n => if n = 0 then none else some n
  | none => none

/-- A calendar date (year, month, day). -/
structure Civil where
  year : Int
  month : Nat
  day : Nat
deriving DecidableEq, Repr

/-- Gregorian calendar date of day `z` counted from the Unix epoch
(standard civil-from-days conversion). -/
def civilFromDays (z0 : Int) : Civil :=
  let z := z0 + 719468
  let era : Int := Int.fdiv z 146097
  let doe : Nat := (z - era * 146097).toNat
  let yoe : Nat := (doe - doe / 1460 + doe / 36524 - doe / 146096) / 365
  let y : Int := (yoe : Int) + era * 400
  let doy : Nat := doe - (365 * yoe + yoe / 4 - yoe / 100)
  let mp : Nat := (5 * doy + 2) / 153
  let d : Nat := doy - (153 * mp + 2) / 5 + 1
  let m : Nat := if mp < 10 then mp + 3 else mp - 9
  { year := if m ≤ 2 then y + 1 else y, month := m, day := d }

/-- `String(n).padStart(2, '0')` for the month and day components. -/
def pad2 (n : Nat) : String :=
  if n < 10 then "0" ++ toString n else toString n

/-- Render the calendar date of epoch-millisecond time `t` as
`YYYY-MM-DD` (lines 37-40 of the source). -/
def fmtYMD (t : Int) : String :=
  let c := civilFromDays (Int.fdiv t 86400000)
  toString c.year ++ "-" ++ pad2 c.month ++ "-" ++ pad2 c.day

/-- `formatDate` (lines 28-45): empty string on a falsy input or an
invalid parse, otherwise the `YYYY-MM-DD` rendering. -/
def formatDate : Option DateStr → String
  | none => ""
  | some DateStr.invalid => ""
  | some (DateStr.valid t) => fmtYMD t

/-- `new Date(a) > new Date(b)`: false unless both parse to valid
dates and `a` is strictly later (`NaN` comparisons are false). -/
def jsDateGT : Option DateStr → Option DateStr → Bool
  | some (DateStr.valid a), some (DateStr.valid b) => decide (b < a)
  | _, _ => false

/-- The guard `item.movie && item.movie.ids && item.movie.ids.trakt`
(lines 68 and 94): returns the movie, its identifier block and its
truthy trakt id, or `none` when any link of the chain is falsy. -/
def getKey : Option Movie → Option (Movie × Ids × TraktId)
  | none => none
  | some mv =>
    match mv.ids with
    | none => none
    | some ids =>
      match ids.trakt with
      | none => none
      | some t => if t.truthy then some (mv, ids, t) else none

/-- The join key contributed by a watch event, if it is valid. -/
def watchKey (item : WatchedItem) : Option TraktId :=
  (getKey item.movie).map (fun x => x.2.2)

/-- The join key contributed by a rating event, if it is a movie-typed
event with valid identifier data. -/
def ratingKey (item : RatingItem) : Option TraktId :=
  if item.type = "movie" then (getKey item.movie).map (fun x => x.2.2) else none

/-- The `mergedMovies` map: an association list in insertion order. -/
abbrev MMap := List (TraktId × MovieInfo)

/-- `Map.prototype.get`. -/
def mapGet : MMap → TraktId → Option MovieInfo
  | [], _ => none
  | (k', v) :: rest, k => if k' = k then some v else mapGet rest k

/-- `Map.prototype.set`: replace in place if the key exists (keeping
its position), else append at the end. -/
def mapSet : MMap → TraktId → MovieInfo → MMap
  | [], k, v => [(k, v)]
  | (k', v') :: rest, k, v =>
    if k' = k then (k, v) :: rest else (k', v') :: mapSet rest k v

/-- The merged record built from a watch event (lines 71-81). -/
def mkWatchInfo (mv : Movie) (ids : Ids) (tid : TraktId)
    (item : WatchedItem) : MovieInfo :=
  { traktId := tid
    imdbID := ids.imdb.getD ""
    tmdbID := ids.tmdb.getD ""
    Title := mv.title.getD ""
    Year := jsOrInt mv.year
    Rating10 := none
    WatchedDate := formatDate item.last_watched_at
    Rewatch := decide (item.plays.getD 0 > 1)
    lastWatchedTimestamp := item.last_watched_at }

/-- The merged record built from a rating event with no prior entry
(lines 119-129). -/
def mkRatingInfo (mv : Movie) (ids : Ids) (tid : TraktId)
    (item : RatingItem) : MovieInfo :=
  { traktId := tid
    imdbID := ids.imdb.getD ""
    tmdbID := ids.tmdb.getD ""
    Title := mv.title.getD ""
    Year := jsOrInt mv.year
    Rating10 := jsOrNat item.rating
    WatchedDate := formatDate item.rated_at
    Rewatch := false
    lastWatchedTimestamp := none }

/-- One step of the watched-movies pass (lines 67-86). -/
def seedWatch (m : MMap) (item : WatchedItem) : MMap :=
  match getKey item.movie with
  | some (mv, ids, tid) => mapSet m tid (mkWatchInfo mv ids tid item)
  | none => m

/-- The in-place update of an existing merged record by a rating event
(lines 102-114): overwrite the rating, then resolve the date conflict.
The first guard is JavaScript truthiness of the raw `rated_at`
combined with the `Date` comparison; the second guard fires when the
current watched date is empty and the formatted rating date is not. -/
def updateWithRating (existing : MovieInfo) (item : RatingItem) : MovieInfo :=
  let e1 := { existing with Rating10 := jsOrNat item.rating }
  let ratedAtDate := formatDate item.rated_at
  if item.rated_at.isSome &&
      (!existing.lastWatchedTimestamp.isSome ||
        jsDateGT item.rated_at existing.lastWatchedTimestamp) then
    { e1 with WatchedDate := ratedAtDate }
  else if e1.WatchedDate = "" ∧ ratedAtDate ≠ "" then
    { e1 with WatchedDate := ratedAtDate }
  else e1

/-- One step of the ratings pass (lines 93-136). -/
def mergeRating (m : MMap) (item : RatingItem) : MMap :=
  if item.type = "movie" then
    match getKey item.movie with
    | some (mv, ids, tid) =>
      match mapGet m tid with
      | some existing => mapSet m tid (updateWithRating existing item)
      | none => mapSet m tid (mkRatingInfo mv ids tid item)
    | none => m
  else m

/-- The final projection of a merged record (lines 142-151). -/
def project (mi : MovieInfo) : OutRecord :=
  { imdbID := mi.imdbID
    tmdbID := mi.tmdbID
    Title := mi.Title
    Year := mi.Year
    Rating10 := mi.Rating10
    WatchedDate := mi.WatchedDate
    Rewatch := if mi.Rewatch then "Yes" else "No" }

/-- The merged movies map after both passes of `processTraktData`. -/
def mergeAll (watched : List WatchedItem) (ratings : List RatingItem) : MMap :=
  ratings.foldl mergeRating (watched.foldl seedWatch [])

/-- The core of `processTraktData`: the ordered output record sequence
handed to the CSV writer. -/
def processTraktData (watched : List WatchedItem)
    (ratings : List RatingItem) : List OutRecord :=
  ((mergeAll watched ratings).map Prod.snd).map project

/-- Keys of the merged map in iteration order. -/
def keys (m : MMap) : List TraktId := m.map Prod.fst

/-- Valid join keys of a watch sequence, in order, with multiplicity. -/
def watchKeys (ws : List WatchedItem) : List TraktId := ws.filterMap watchKey

/-- Valid join keys of a rating sequence, in order, with multiplicity. -/
def ratingKeys (rs : List RatingItem) : List TraktId := rs.filterMap ratingKey

/-- First-appearance accumulation of a key into a key list: the effect
of `Map.prototype.set` on the key iteration order. -/
def insertKey (ks : List TraktId) (k : TraktId) : List TraktId :=
  if k ∈ ks then ks else ks ++ [k]

/-- Last element of a list satisfying a predicate. -/
def findLast (p : α → Bool) : List α → Option α
  | [] => none
  | x :: xs =>
    match findLast p xs with
    | some y => some y
    | none => if p x then some x else none

/-- Modelled from the spec: the date-precedence property of section 8.
Given the watch timestamp and the rating timestamp of a key carrying
exactly one event of each kind, the expected output date is the
formatted later timestamp when both are valid, the formatted valid one
when exactly one is valid, and the empty string otherwise. -/
def specDatePrecedence : Option DateStr → Option DateStr → String
  | some (DateStr.valid t1), some (DateStr.valid t2) => fmtYMD (max t1 t2)
  | some (DateStr.valid t1), _ => fmtYMD t1
  | _, some (DateStr.valid t2) => fmtYMD t2
  | _, _ => ""

/-- The creation-time identity fields of a merged record: join key,
secondary ids, title and year. -/
def sameIdentity (a b : MovieInfo) : Prop :=
  a.traktId = b.traktId ∧ a.imdbID = b.imdbID ∧ a.tmdbID = b.tmdbID ∧
    a.Title = b.Title ∧ a.Year = b.Year

/-- Modelled from the amended claim: the first-priority date-update
condition as the code implements it — the raw `rated_at` is present
(truthy), and either the record retains no raw watch timestamp or
both timestamps parse to valid dates with `rated_at` strictly later. -/
def truthyRatedPrecedence (existing : MovieInfo) (item : RatingItem) : Prop :=
  item.rated_at ≠ none ∧ (existing.lastWatchedTimestamp = none ∨
    ∃ t1 t2, existing.lastWatchedTimestamp = some (DateStr.valid t1) ∧
      item.rated_at = some (DateStr.valid t2) ∧ t1 < t2)

/-! ### Concrete example inputs used by witnesses and counterexamples -/

/-- An identifier block with a truthy trakt id and both secondary ids. -/
def exIds : Ids := { trakt := some (TraktId.num 1), imdb := some "tt1", tmdb := some "77" }

/-- A movie object with full data. -/
def exMovie : Movie := { ids := some exIds, title := some "A", year := some 2000 }

/-- A watch event: watched on 2021-01-01 UTC with two plays. -/
def exWatch : WatchedItem :=
  { movie := some exMovie, last_watched_at := some (DateStr.valid 1609459200000),
    plays := some 2 }

/-- A rating event: rated 8 on 2021-06-01 UTC. -/
def exRate : RatingItem :=
  { type := "movie", movie := some exMovie, rating := some 8,
    rated_at := some (DateStr.valid 1622505600000) }

/-- A rating event whose `rated_at` is a truthy but unparseable string. -/
def exRateInvalid : RatingItem :=
  { type := "movie", movie := some exMovie, rating := some 7,
    rated_at := some DateStr.invalid }

/-- A watch event with no `movie` block at all. -/
def exBadWatch : WatchedItem := { movie := none, last_watched_at := none, plays := none }

/-- A rating event whose type discriminator is not `movie`. -/
def exBadRate : RatingItem :=
  { type := "episode", movie := some exMovie, rating := some 5, rated_at := none }

/-- An identifier block whose trakt id is the falsy number `0`. -/
def exZeroIds : Ids := { trakt := some (TraktId.num 0), imdb := none, tmdb := none }

/-- A movie object whose trakt id is the falsy number `0`. -/
def exZeroMovie : Movie := { ids := some exZeroIds, title := none, year := none }

/-- A watch event whose trakt id is the falsy number `0`. -/
def exZeroWatch : WatchedItem :=
  { movie := some exZeroMovie, last_watched_at := none, plays := none }

/-- An identifier block whose trakt id is the falsy empty string. -/
def exEmptyIds : Ids := { trakt := some (TraktId.str ""), imdb := none, tmdb := none }

/-- A movie object whose trakt id is the falsy empty string. -/
def exEmptyMovie : Movie := { ids := some exEmptyIds, title := none, year := none }

/-- A rating event whose trakt id is the falsy empty string. -/
def exEmptyStrRate : RatingItem :=
  { type := "movie", movie := some exEmptyMovie, rating := some 4, rated_at := none }

/-- A movie-typed rating event whose rating value is `0`. -/
def exZeroRate : RatingItem :=
  { type := "movie", movie := some exMovie, rating := some 0, rated_at := none }

/-- The merged record created by `exRate` alone: a rating-only record
with a valid watched date and no retained watch timestamp. -/
def exC2rec : MovieInfo := mkRatingInfo exMovie exIds (TraktId.num 1) exRate

/-- The merged record seeded by `exWatch`. -/
def exWrec : MovieInfo := mkWatchInfo exMovie exIds (TraktId.num 1) exWatch

/-- The merged record after `exWatch` is seeded and `exRate` merges in. -/
def exC5rec : MovieInfo := updateWithRating exWrec exRate


/-! ### Basic lemmas about the association-list map -/

theorem mapGet_mapSet_self (m : MMap) (k : TraktId) (v : MovieInfo) :
    mapGet (mapSet m k v) k = some v := by
  induction m with
  | nil => simp [mapSet, mapGet]
  | cons kv rest ih =>
    obtain ⟨k', v'⟩ := kv
    by_cases h : k' = k
    · simp [mapSet, h, mapGet]
    · simp [mapSet, h, mapGet, ih]

theorem keys_nil : keys ([] : MMap) = [] := rfl

theorem keys_cons (k : TraktId) (v : MovieInfo) (rest : MMap) :
    keys ((k, v) :: rest) = k :: keys rest := rfl

theorem mapGet_mapSet_ne (m : MMap) (k : TraktId) (v : MovieInfo)
    (a : TraktId) (h : a ≠ k) : mapGet (mapSet m k v) a = mapGet m a := by
  induction m with
  | nil => simp [mapSet, mapGet, Ne.symm h]
  | cons kv rest ih =>
    obtain ⟨k', v'⟩ := kv
    by_cases hk : k' = k
    · subst hk
      simp [mapSet, mapGet, Ne.symm h, h]
    · by_cases ha : k' = a <;> simp [mapSet, hk, mapGet, ha, ih, h]

theorem keys_mapSet_eq_insertKey (m : MMap) (k : TraktId) (v : MovieInfo) :
    keys (mapSet m k v) = insertKey (keys m) k := by
  induction m with
  | nil => simp [mapSet, keys, insertKey]
  | cons kv rest ih =>
    obtain ⟨k', v'⟩ := kv
    by_cases hk : k' = k
    · subst hk
      simp [mapSet, keys_cons, insertKey]
    · simp only [mapSet, if_neg hk, keys_cons, ih, insertKey]
      by_cases hmem : k ∈ keys rest
      · simp [hmem, Ne.symm hk]
      · simp [hmem, Ne.symm hk]

theorem mem_keys_mapSet (m : MMap) (k : TraktId) (v : MovieInfo) (a : TraktId) :
    a ∈ keys (mapSet m k v) ↔ a ∈ keys m ∨ a = k := by
  rw [keys_mapSet_eq_insertKey]
  unfold insertKey
  by_cases h : k ∈ keys m
  · simp only [h, if_true]
    constructor
    · exact Or.inl
    · rintro (ha | ha)
      · exact ha
      · exact ha ▸ h
  · simp [h]

theorem nodup_keys_mapSet (m : MMap) (k : TraktId) (v : MovieInfo)
    (h : (keys m).Nodup) : (keys (mapSet m k v)).Nodup := by
  rw [keys_mapSet_eq_insertKey]
  unfold insertKey
  by_cases hk : k ∈ keys m
  · simpa [hk] using h
  · simp [hk, List.nodup_append, h]

theorem mem_insertKey (ks : List TraktId) (k a : TraktId) :
    a ∈ insertKey ks k ↔ a ∈ ks ∨ a = k := by
  unfold insertKey
  by_cases h : k ∈ ks
  · simp only [h, if_true]
    constructor
    · exact Or.inl
    · rintro (ha | ha)
      · exact ha
      · exact ha ▸ h
  · simp [h]

theorem nodup_insertKey (ks : List TraktId) (k : TraktId)
    (h : ks.Nodup) : (insertKey ks k).Nodup := by
  unfold insertKey
  by_cases hk : k ∈ ks
  · simpa [hk] using h
  · simp [hk, List.nodup_append, h]

theorem nodup_foldl_insertKey (l : List TraktId) :
    ∀ ks : List TraktId, ks.Nodup → (l.foldl insertKey ks).Nodup := by
  induction l with
  | nil => intro ks h; simpa using h
  | cons k l ih =>
    intro ks h
    simpa using ih (insertKey ks k) (nodup_insertKey ks k h)

theorem mem_foldl_insertKey (l : List TraktId) :
    ∀ (ks : List TraktId) (a : TraktId),
      a ∈ l.foldl insertKey ks ↔ a ∈ ks ∨ a ∈ l := by
  induction l with
  | nil => intro ks a; simp
  | cons k l ih =>
    intro ks a
    simp only [List.foldl_cons, ih, mem_insertKey, List.mem_cons]
    tauto

theorem mapGet_some_mem (m : MMap) (k : TraktId) (v : MovieInfo)
    (h : mapGet m k = some v) : (k, v) ∈ m := by
  induction m with
  | nil => simp [mapGet] at h
  | cons kv rest ih =>
    obtain ⟨k', v'⟩ := kv
    by_cases hk : k' = k
    · subst hk
      simp [mapGet] at h
      simp [h]
    · simp [mapGet, hk] at h
      exact List.mem_cons_of_mem _ (ih h)

/-! ### Step lemmas for the two passes -/

theorem seedWatch_eq_of_none (m : MMap) (it : WatchedItem)
    (h : watchKey it = none) : seedWatch m it = m := by
  unfold watchKey at h
  unfold seedWatch
  cases hg : getKey it.movie with
  | none => rfl
  | some x => simp [hg] at h

theorem mergeRating_eq_of_none (m : MMap) (it : RatingItem)
    (h : ratingKey it = none) : mergeRating m it = m := by
  unfold ratingKey at h
  unfold mergeRating
  by_cases ht : it.type = "movie"
  · simp only [ht, if_true] at h ⊢
    cases hg : getKey it.movie with
    | none => rfl
    | some x => simp [hg] at h
  · simp [ht]

theorem keys_seedWatch_some (m : MMap) (it : WatchedItem) (k : TraktId)
    (h : watchKey it = some k) : keys (seedWatch m it) = insertKey (keys m) k := by
  unfold watchKey at h
  unfold seedWatch
  cases hg : getKey it.movie with
  | none => simp [hg] at h
  | some x =>
    obtain ⟨mv, ids, tid⟩ := x
    simp only [hg, Option.map_some] at h
    obtain rfl : tid = k := by simpa using h
    simp [keys_mapSet_eq_insertKey]

theorem keys_mergeRating_some (m : MMap) (it : RatingItem) (k : TraktId)
    (h : ratingKey it = some k) : keys (mergeRating m it) = insertKey (keys m) k := by
  unfold ratingKey at h
  unfold mergeRating
  by_cases ht : it.type = "movie"
  · simp only [ht, if_true] at h ⊢
    cases hg : getKey it.movie with
    | none => simp [hg] at h
    | some x =>
      obtain ⟨mv, ids, tid⟩ := x
      simp only [hg, Option.map_some] at h
      obtain rfl : tid = k := by simpa using h
      cases he : mapGet m tid <;> simp [he, keys_mapSet_eq_insertKey]
  · simp [ht] at h

theorem mapGet_seedWatch_ne (m : MMap) (it : WatchedItem) (a : TraktId)
    (h : watchKey it ≠ some a) : mapGet (seedWatch m it) a = mapGet m a := by
  unfold watchKey at h
  unfold seedWatch
  cases hg : getKey it.movie with
  | none => rfl
  | some x =>
    obtain ⟨mv, ids, tid⟩ := x
    have hne : a ≠ tid := by
      intro hEq
      exact h (by simp [hg, hEq])
    simp [mapGet_mapSet_ne _ _ _ _ hne]

theorem mapGet_mergeRating_ne (m : MMap) (it : RatingItem) (a : TraktId)
    (h : ratingKey it ≠ some a) : mapGet (mergeRating m it) a = mapGet m a := by
  unfold ratingKey at h
  unfold mergeRating
  by_cases ht : it.type = "movie"
  · simp only [ht, if_true] at h ⊢
    cases hg : getKey it.movie with
    | none => rfl
    | some x =>
      obtain ⟨mv, ids, tid⟩ := x
      have hne : a ≠ tid := by
        intro hEq
        exact h (by simp [hg, hEq])
      cases he : mapGet m tid <;> simp [he, mapGet_mapSet_ne _ _ _ _ hne]
  · simp [ht]

theorem mapGet_foldl_seed_ne (ws : List WatchedItem) :
    ∀ (m : MMap) (a : TraktId), (∀ it ∈ ws, watchKey it ≠ some a) →
      mapGet (ws.foldl seedWatch m) a = mapGet m a := by
  induction ws with
  | nil => intro m a _; rfl
  | cons w ws ih =>
    intro m a h
    have hw : watchKey w ≠ some a := h w (List.mem_cons_self w ws)
    have hrest : ∀ it ∈ ws, watchKey it ≠ some a :=
      fun it hit => h it (List.mem_cons_of_mem w hit)
    simp only [List.foldl_cons]
    rw [ih (seedWatch m w) a hrest, mapGet_seedWatch_ne m w a hw]

theorem mapGet_foldl_merge_ne (rs : List RatingItem) :
    ∀ (m : MMap) (a : TraktId), (∀ it ∈ rs, ratingKey it ≠ some a) →
      mapGet (rs.foldl mergeRating m) a = mapGet m a := by
  induction rs with
  | nil => intro m a _; rfl
  | cons r rs ih =>
    intro m a h
    have hr : ratingKey r ≠ some a := h r (List.mem_cons_self r rs)
    have hrest : ∀ it ∈ rs, ratingKey it ≠ some a :=
      fun it hit => h it (List.mem_cons_of_mem r hit)
    simp only [List.foldl_cons]
    rw [ih (mergeRating m r) a hrest, mapGet_mergeRating_ne m r a hr]

/-! ### Key-order lemmas for the two passes -/

theorem keys_foldl_seed (ws : List WatchedItem) :
    ∀ m : MMap, keys (ws.foldl seedWatch m) = (watchKeys ws).foldl insertKey (keys m) := by
  induction ws with
  | nil => intro m; rfl
  | cons w ws ih =>
    intro m
    simp only [List.foldl_cons, watchKeys, List.filterMap_cons]
    cases hw : watchKey w with
    | none =>
      rw [ih (seedWatch m w), seedWatch_eq_of_none m w hw]
      rfl
    | some k =>
      simp only [List.foldl_cons]
      rw [ih (seedWatch m w), keys_seedWatch_some m w k hw]
      rfl

theorem keys_foldl_merge (rs : List RatingItem) :
    ∀ m : MMap, keys (rs.foldl mergeRating m) = (ratingKeys rs).foldl insertKey (keys m) := by
  induction rs with
  | nil => intro m; rfl
  | cons r rs ih =>
    intro m
    simp only [List.foldl_cons, ratingKeys, List.filterMap_cons]
    cases hr : ratingKey r with
    | none =>
      rw [ih (mergeRating m r), mergeRating_eq_of_none m r hr]
      rfl
    | some k =>
      simp only [List.foldl_cons]
      rw [ih (mergeRating m r), keys_mergeRating_some m r k hr]
      rfl

/-! ### Field-level facts about the rating update -/

theorem updateWithRating_Rewatch (e : MovieInfo) (it : RatingItem) :
    (updateWithRating e it).Rewatch = e.Rewatch := by
  simp only [updateWithRating]
  split_ifs <;> rfl

theorem updateWithRating_Rating10 (e : MovieInfo) (it : RatingItem) :
    (updateWithRating e it).Rating10 = jsOrNat it.rating := by
  simp only [updateWithRating]
  split_ifs <;> rfl

theorem sameIdentity_refl (e : MovieInfo) : sameIdentity e e :=
  ⟨rfl, rfl, rfl, rfl, rfl⟩

theorem sameIdentity_trans {a b c : MovieInfo}
    (h1 : sameIdentity a b) (h2 : sameIdentity b c) : sameIdentity a c := by
  obtain ⟨x1, x2, x3, x4, x5⟩ := h1
  obtain ⟨y1, y2, y3, y4, y5⟩ := h2
  exact ⟨x1.trans y1, x2.trans y2, x3.trans y3, x4.trans y4, x5.trans y5⟩

theorem updateWithRating_identity (e : MovieInfo) (it : RatingItem) :
    sameIdentity (updateWithRating e it) e := by
  simp only [updateWithRating, sameIdentity]
  split_ifs <;> exact ⟨rfl, rfl, rfl, rfl, rfl⟩

/-! ### The rewatch flag is decided by the watch pass alone -/

theorem rewatch_mergeRating (m : MMap) (it : RatingItem) (a : TraktId) :
    ((mapGet (mergeRating m it) a).map MovieInfo.Rewatch).getD false =
      ((mapGet m a).map MovieInfo.Rewatch).getD false := by
  by_cases hk : ratingKey it = some a
  · unfold ratingKey at hk
    by_cases ht : it.type = "movie"
    · simp only [ht, if_true] at hk
      cases hg : getKey it.movie with
      | none => simp [hg] at hk
      | some x =>
        obtain ⟨mv, ids, tid⟩ := x
        rw [hg] at hk
        obtain rfl : tid = a := by simpa using hk
        unfold mergeRating
        simp only [ht, if_true, hg]
        cases he : mapGet m tid with
        | some e => simp [he, mapGet_mapSet_self, updateWithRating_Rewatch]
        | none => simp [he, mapGet_mapSet_self, mkRatingInfo]
    · simp [ht] at hk
  · rw [mapGet_mergeRating_ne m it a hk]

theorem rewatch_foldl_merge (rs : List RatingItem) :
    ∀ (m : MMap) (a : TraktId),
      ((mapGet (rs.foldl mergeRating m) a).map MovieInfo.Rewatch).getD false =
        ((mapGet m a).map MovieInfo.Rewatch).getD false := by
  induction rs with
  | nil => intro m a; rfl
  | cons r rs ih =>
    intro m a
    simp only [List.foldl_cons]
    rw [ih (mergeRating m r) a, rewatch_mergeRating m r a]

/-! ### Identity fields survive the whole rating pass -/

theorem identity_mergeRating (m : MMap) (it : RatingItem) (a : TraktId)
    (e : MovieInfo) (h : mapGet m a = some e) :
    ∃ e2, mapGet (mergeRating m it) a = some e2 ∧ sameIdentity e2 e := by
  by_cases hk : ratingKey it = some a
  · unfold ratingKey at hk
    by_cases ht : it.type = "movie"
    · simp only [ht, if_true] at hk
      cases hg : getKey it.movie with
      | none => simp [hg] at hk
      | some x =>
        obtain ⟨mv, ids, tid⟩ := x
        rw [hg] at hk
        obtain rfl : tid = a := by simpa using hk
        unfold mergeRating
        simp only [ht, if_true, hg, h]
        exact ⟨updateWithRating e it, mapGet_mapSet_self m tid _,
          updateWithRating_identity e it⟩
    · simp [ht] at hk
  · rw [mapGet_mergeRating_ne m it a hk]
    exact ⟨e, h, sameIdentity_refl e⟩

theorem identity_foldl_merge (rs : List RatingItem) :
    ∀ (m : MMap) (a : TraktId) (e : MovieInfo), mapGet m a = some e →
      ∃ e2, mapGet (rs.foldl mergeRating m) a = some e2 ∧ sameIdentity e2 e := by
  induction rs with
  | nil => intro m a e h; exact ⟨e, h, sameIdentity_refl e⟩
  | cons r rs ih =>
    intro m a e h
    obtain ⟨e1, he1, hid1⟩ := identity_mergeRating m r a e h
    obtain ⟨e2, he2, hid2⟩ := ih (mergeRating m r) a e1 he1
    exact ⟨e2, by simpa using he2, sameIdentity_trans hid2 hid1⟩

/-! ### The seeding pass realises last-write-wins per key -/

theorem seed_foldl_get (ws : List WatchedItem) :
    ∀ (m : MMap) (k : TraktId),
      mapGet (ws.foldl seedWatch m) k =
        match findLast (fun it => watchKey it == some k) ws with
        | some it => (getKey it.movie).map (fun x => mkWatchInfo x.1 x.2.1 x.2.2 it)
        | none => mapGet m k := by
  induction ws with
  | nil => intro m k; rfl
  | cons w ws ih =>
    intro m k
    simp only [List.foldl_cons]
    cases hf : findLast (fun it => watchKey it == some k) ws with
    | some y =>
      rw [ih (seedWatch m w) k, hf]
      simp [findLast, hf]
    | none =>
      rw [ih (seedWatch m w) k, hf]
      by_cases hp : watchKey w = some k
      · have hb : (watchKey w == some k) = true := by simp [hp]
        simp only [findLast, hf, hb, if_true]
        unfold watchKey at hp
        cases hg : getKey w.movie with
        | none => simp [hg] at hp
        | some x =>
          obtain ⟨mv, ids, tid⟩ := x
          rw [hg] at hp
          obtain rfl : tid = k := by simpa using hp
          unfold seedWatch
          simp [hg, mapGet_mapSet_self]
      · have hb : (watchKey w == some k) = false := by simpa using hp
        simp only [findLast, hf, hb, Bool.false_eq_true, if_false]
        exact mapGet_seedWatch_ne m w k hp

/-! ### Miscellaneous helpers -/

theorem fmtYMD_ne_empty (t : Int) : fmtYMD t ≠ "" := by
  intro h
  have hl := congrArg String.length h
  simp only [fmtYMD, String.length_append] at hl
  have h1 : ("-" : String).length = 1 := rfl
  have h0 : ("" : String).length = 0 := rfl
  rw [h1, h0] at hl
  omega

theorem ratingKey_eq_some (it : RatingItem) (k : TraktId)
    (h : ratingKey it = some k) :
    it.type = "movie" ∧ ∃ mv ids, getKey it.movie = some (mv, ids, k) := by
  unfold ratingKey at h
  by_cases ht : it.type = "movie"
  · simp only [ht, if_true] at h
    cases hg : getKey it.movie with
    | none => rw [hg] at h; cases h
    | some x =>
      obtain ⟨mv, ids, tid⟩ := x
      rw [hg] at h
      refine ⟨ht, mv, ids, ?_⟩
      obtain rfl : tid = k := by simpa using h
      rfl
  · simp [ht] at h

theorem mergeRating_hit (m : MMap) (it : RatingItem) (k : TraktId)
    (mv : Movie) (ids : Ids)
    (ht : it.type = "movie") (hg : getKey it.movie = some (mv, ids, k)) :
    mergeRating m it =
      match mapGet m k with
      | some existing => mapSet m k (updateWithRating existing it)
      | none => mapSet m k (mkRatingInfo mv ids k it) := by
  unfold mergeRating
  simp only [ht, if_true, hg]

theorem findLast_some (p : α → Bool) (l : List α) (x : α)
    (h : findLast p l = some x) : p x = true := by
  induction l with
  | nil => cases h
  | cons a l ih =>
    simp only [findLast] at h
    cases hf : findLast p l with
    | some y =>
      rw [hf] at h
      cases h
      exact ih hf
    | none =>
      rw [hf] at h
      by_cases hp : p a
      · rw [if_pos hp] at h
        cases h
        exact hp
      · rw [if_neg hp] at h
        cases h

theorem project_mem_output (watched : List WatchedItem) (ratings : List RatingItem)
    (k : TraktId) (rec : MovieInfo)
    (h : mapGet (mergeAll watched ratings) k = some rec) :
    project rec ∈ processTraktData watched ratings := by
  unfold processTraktData
  exact List.mem_map_of_mem project
    (List.mem_map_of_mem Prod.snd (mapGet_some_mem _ _ _ h))

/-- The nine-way case analysis of date conflict resolution for a
watch-seeded record hit by a rating event. -/
theorem updateWatch_date_spec (mv : Movie) (ids : Ids) (k : TraktId)
    (w : WatchedItem) (r : RatingItem) :
    (updateWithRating (mkWatchInfo mv ids k w) r).WatchedDate =
      specDatePrecedence w.last_watched_at r.rated_at := by
  simp only [updateWithRating, mkWatchInfo]
  rcases hw : w.last_watched_at with _ | ⟨⟩ | t1 <;>
    rcases hr : r.rated_at with _ | ⟨⟩ | t2
  · simp [formatDate, jsDateGT, specDatePrecedence]
  · simp [formatDate, jsDateGT, specDatePrecedence]
  · simp [formatDate, jsDateGT, specDatePrecedence]
  · simp [formatDate, jsDateGT, specDatePrecedence]
  · simp [formatDate, jsDateGT, specDatePrecedence]
  · simp [formatDate, jsDateGT, specDatePrecedence, fmtYMD_ne_empty t2]
  · simp [formatDate, jsDateGT, specDatePrecedence, fmtYMD_ne_empty t1]
  · simp [formatDate, jsDateGT, specDatePrecedence, fmtYMD_ne_empty t1]
  · by_cases hlt : t1 < t2
    · have hmax := max_eq_right (le_of_lt hlt)
      simp [formatDate, jsDateGT, specDatePrecedence, hlt, hmax]
    · have hmax := max_eq_left (not_lt.mp hlt)
      simp [formatDate, jsDateGT, specDatePrecedence, hlt, fmtYMD_ne_empty t1, hmax]

theorem truthyRatedPrecedence_iff (e : MovieInfo) (it : RatingItem) :
    truthyRatedPrecedence e it ↔
      (it.rated_at.isSome && (!e.lastWatchedTimestamp.isSome ||
        jsDateGT it.rated_at e.lastWatchedTimestamp)) = true := by
  unfold truthyRatedPrecedence
  rcases hr : it.rated_at with _ | ⟨⟩ | t2
  · simp [hr]
  · rcases hl : e.lastWatchedTimestamp with _ | ⟨⟩ | t1 <;> simp [jsDateGT]
  · rcases hl : e.lastWatchedTimestamp with _ | ⟨⟩ | t1 <;> simp [jsDateGT]

/-! ### The claims -/

/-- C1: for every pair of input collections, the merged collection has
no duplicate join keys, and a join key occurs in it exactly when it is
the valid join key of some watch event or of some movie-typed rating
event of the inputs — so the projected output has exactly one record
per distinct valid join key. -/
theorem C1_join_key_unique_and_covering (watched : List WatchedItem)
    (ratings : List RatingItem) :
    (keys (mergeAll watched ratings)).Nodup ∧
      ∀ k, k ∈ keys (mergeAll watched ratings) ↔
        k ∈ watchKeys watched ∨ k ∈ ratingKeys ratings := by
  constructor
  · unfold mergeAll
    rw [keys_foldl_merge, keys_foldl_seed]
    exact nodup_foldl_insertKey _ _ (nodup_foldl_insertKey _ _ (by simp [keys]))
  · intro k
    unfold mergeAll
    rw [keys_foldl_merge, keys_foldl_seed, mem_foldl_insertKey, mem_foldl_insertKey]
    simp only [keys, List.map_nil, List.not_mem_nil, false_or]

/-- C7: the output sequence is the projection of the merged collection
in its iteration order, with no re-sorting, and that iteration order is
the first-appearance insertion order of the valid join keys — all watch
keys in input order first, then the rating-only keys in input order. -/
theorem C7_insertion_order (watched : List WatchedItem) (ratings : List RatingItem) :
    keys (mergeAll watched ratings) =
      (watchKeys watched ++ ratingKeys ratings).foldl insertKey [] ∧
      processTraktData watched ratings =
        ((mergeAll watched ratings).map Prod.snd).map project := by
  refine ⟨?_, rfl⟩
  unfold mergeAll
  rw [keys_foldl_merge, keys_foldl_seed, List.foldl_append]
  rfl

/-- C2 counterexample: the claim requires a VALID `rated_at` for the
first-priority date update, but the code only checks truthiness of the
raw string (line 107).  Concretely: `exRate` creates a rating-only
record for key 1 with watched date `2021-06-01` and no retained watch
timestamp; then `exRateInvalid` (truthy but unparseable `rated_at`,
whose formatted date is the empty string) merges into it.  By the
claim's priority order nothing applies — rule (1) needs a valid
`rated_at`, rule (2) needs an empty current date — so the date should
stay `2021-06-01`; the code instead overwrites it with the empty
string. -/
theorem C2_counterexample :
    (mapGet (mergeAll [] [exRate]) (TraktId.num 1)).map MovieInfo.WatchedDate =
        some "2021-06-01" ∧
      (mapGet (mergeAll [] [exRate]) (TraktId.num 1)).map
        MovieInfo.lastWatchedTimestamp = some none ∧
      formatDate exRateInvalid.rated_at = "" ∧
      (mapGet (mergeAll [] [exRate, exRateInvalid]) (TraktId.num 1)).map
        MovieInfo.WatchedDate = some "" ∧
      ("" : String) ≠ "2021-06-01" := by
  refine ⟨by decide, by decide, rfl, by decide, by decide⟩

theorem truthyRatedPrecedence_false (e : MovieInfo) (it : RatingItem)
    (hc : ¬truthyRatedPrecedence e it) :
    (it.rated_at.isSome && (!e.lastWatchedTimestamp.isSome ||
      jsDateGT it.rated_at e.lastWatchedTimestamp)) = false := by
  rcases Bool.eq_false_or_eq_true (it.rated_at.isSome &&
      (!e.lastWatchedTimestamp.isSome ||
        jsDateGT it.rated_at e.lastWatchedTimestamp)) with hB | hB
  · exact absurd ((truthyRatedPrecedence_iff e it).mpr hB) hc
  · exact hB

/-- C2 (amended): when a rating event merges into an existing record,
the watched date is updated by this priority order: (1) if the event's
raw `rated_at` is present (truthy) and either the record has no
retained raw watch timestamp or both timestamps parse to valid dates
with `rated_at` strictly later, the watched date becomes the formatted
`rated_at` (empty when the `rated_at` is unparseable); (2) else if the
record's current watched date is empty and the formatted `rated_at` is
non-empty, the watched date becomes the formatted `rated_at`; (3) else
the watched date is unchanged. -/
theorem C2_date_update_amended (m : MMap) (item : RatingItem) (k : TraktId)
    (existing : MovieInfo)
    (hk : ratingKey item = some k) (he : mapGet m k = some existing) :
    ∃ e, mapGet (mergeRating m item) k = some e ∧
      (truthyRatedPrecedence existing item →
        e.WatchedDate = formatDate item.rated_at) ∧
      (¬truthyRatedPrecedence existing item → existing.WatchedDate = "" →
        formatDate item.rated_at ≠ "" →
        e.WatchedDate = formatDate item.rated_at) ∧
      (¬truthyRatedPrecedence existing item →
        ¬(existing.WatchedDate = "" ∧ formatDate item.rated_at ≠ "") →
        e.WatchedDate = existing.WatchedDate) := by
  obtain ⟨ht, mv, ids, hg⟩ := ratingKey_eq_some item k hk
  unfold mergeRating
  simp only [ht, if_true, hg, he]
  refine ⟨updateWithRating existing item, mapGet_mapSet_self m k _, ?_, ?_, ?_⟩
  · intro hc
    rw [truthyRatedPrecedence_iff] at hc
    simp only [updateWithRating, hc, if_true]
  · intro hc hemp hne
    have hcb := truthyRatedPrecedence_false existing item hc
    simp only [updateWithRating, hcb, Bool.false_eq_true, if_false]
    rw [if_pos ⟨hemp, hne⟩]
  · intro hc hnc
    have hcb := truthyRatedPrecedence_false existing item hc
    simp only [updateWithRating, hcb, Bool.false_eq_true, if_false]
    rw [if_neg hnc]

/-- C3: for a join key carrying exactly one watch event (timestamp T1)
and exactly one rating event (timestamp T2), the output record's
watched date is the formatted later timestamp when both are valid, the
formatted valid one when exactly one is valid, and the empty string
when both are missing or invalid. -/
theorem C3_date_precedence (w1 w2 : List WatchedItem) (r1 r2 : List RatingItem)
    (w : WatchedItem) (r : RatingItem) (k : TraktId) (mw : Movie) (iw : Ids)
    (hwk : getKey w.movie = some (mw, iw, k))
    (hrk : ratingKey r = some k)
    (_hw1 : ∀ it ∈ w1, watchKey it ≠ some k)
    (hw2 : ∀ it ∈ w2, watchKey it ≠ some k)
    (hr1 : ∀ it ∈ r1, ratingKey it ≠ some k)
    (hr2 : ∀ it ∈ r2, ratingKey it ≠ some k) :
    ∃ rec, mapGet (mergeAll (w1 ++ w :: w2) (r1 ++ r :: r2)) k = some rec ∧
      rec.WatchedDate = specDatePrecedence w.last_watched_at r.rated_at ∧
      project rec ∈ processTraktData (w1 ++ w :: w2) (r1 ++ r :: r2) := by
  obtain ⟨ht, mr2, ir2, hg⟩ := ratingKey_eq_some r k hrk
  have hseed : mapGet ((w1 ++ w :: w2).foldl seedWatch []) k =
      some (mkWatchInfo mw iw k w) := by
    rw [List.foldl_append]
    simp only [List.foldl_cons]
    rw [mapGet_foldl_seed_ne w2 _ k hw2]
    unfold seedWatch
    simp only [hwk]
    exact mapGet_mapSet_self _ _ _
  have hmerge : mapGet (mergeAll (w1 ++ w :: w2) (r1 ++ r :: r2)) k =
      some (updateWithRating (mkWatchInfo mw iw k w) r) := by
    unfold mergeAll
    rw [List.foldl_append]
    simp only [List.foldl_cons]
    rw [mapGet_foldl_merge_ne r2 _ k hr2]
    have hM1 : mapGet (r1.foldl mergeRating
        ((w1 ++ w :: w2).foldl seedWatch [])) k = some (mkWatchInfo mw iw k w) := by
      rw [mapGet_foldl_merge_ne r1 _ k hr1]
      exact hseed
    rw [mergeRating_hit _ r k mr2 ir2 ht hg, hM1]
    exact mapGet_mapSet_self _ _ _
  exact ⟨updateWithRating (mkWatchInfo mw iw k w) r, hmerge,
    updateWatch_date_spec mw iw k w r, project_mem_output _ _ _ _ hmerge⟩

/-- Witness for C3 at a both-valid input: the rating date is later, so
the output date is the formatted rating date. -/
theorem C3_date_precedence_witness :
    ∃ rec, mapGet (mergeAll ([] ++ exWatch :: []) ([] ++ exRate :: []))
        (TraktId.num 1) = some rec ∧
      rec.WatchedDate = specDatePrecedence exWatch.last_watched_at exRate.rated_at ∧
      project rec ∈ processTraktData ([] ++ exWatch :: []) ([] ++ exRate :: []) :=
  C3_date_precedence [] [] [] [] exWatch exRate (TraktId.num 1) exMovie exIds
    (by decide) (by decide) (by simp) (by simp) (by simp) (by simp)

/-- C4: if the last movie-typed valid-id rating event for a join key
carries a present, non-zero rating value, the output record's rating is
exactly that value and is not empty — regardless of the watch
collection, and with last-write-wins over earlier duplicate rating
events for the same key. -/
theorem C4_rating_precedence (watched : List WatchedItem) (r1 r2 : List RatingItem)
    (re : RatingItem) (k : TraktId) (rv : Nat)
    (hk : ratingKey re = some k) (hr : re.rating = some rv) (hrv : rv ≠ 0)
    (hlast : ∀ it ∈ r2, ratingKey it ≠ some k) :
    ∃ rec, mapGet (mergeAll watched (r1 ++ re :: r2)) k = some rec ∧
      rec.Rating10 = some rv ∧ rec.Rating10 ≠ none := by
  obtain ⟨ht, mv, ids, hg⟩ := ratingKey_eq_some re k hk
  have hjs : jsOrNat re.rating = some rv := by simp [jsOrNat, hr, hrv]
  unfold mergeAll
  rw [List.foldl_append]
  simp only [List.foldl_cons]
  rw [mapGet_foldl_merge_ne r2 _ k hlast]
  rw [mergeRating_hit _ re k mv ids ht hg]
  cases he : mapGet (r1.foldl mergeRating (watched.foldl seedWatch [])) k with
  | some e =>
    refine ⟨updateWithRating e re, mapGet_mapSet_self _ _ _, ?_, ?_⟩
    · rw [updateWithRating_Rating10, hjs]
    · rw [updateWithRating_Rating10, hjs]
      simp
  | none =>
    refine ⟨mkRatingInfo mv ids k re, mapGet_mapSet_self _ _ _, ?_, ?_⟩
    · simp [mkRatingInfo, hjs]
    · simp [mkRatingInfo, hjs]

/-- Witness for C4: `exRate` rates the movie watched in `exWatch` with
an 8, so the output rating is 8. -/
theorem C4_rating_precedence_witness :
    ∃ rec, mapGet (mergeAll [exWatch] ([] ++ exRate :: [])) (TraktId.num 1) = some rec ∧
      rec.Rating10 = some 8 ∧ rec.Rating10 ≠ none :=
  C4_rating_precedence [exWatch] [] [] exRate (TraktId.num 1) 8
    (by decide) rfl (by decide) (by simp)

/-- C5: an output record's rewatch field is the string `Yes` exactly
when the last watch event with its join key (the event that created
the record, under last-write-wins seeding) had a plays count strictly
greater than 1; rating-only records (no watch event for the key) are
always `No`, and rating events never alter the flag. -/
theorem C5_rewatch_flag (watched : List WatchedItem) (ratings : List RatingItem)
    (k : TraktId) (rec : MovieInfo)
    (h : mapGet (mergeAll watched ratings) k = some rec) :
    ((project rec).Rewatch = "Yes") ↔
      ∃ it, findLast (fun i => watchKey i == some k) watched = some it ∧
        it.plays.getD 0 > 1 := by
  have hrw0 := rewatch_foldl_merge ratings (watched.foldl seedWatch []) k
  unfold mergeAll at h
  rw [h] at hrw0
  have hrw : rec.Rewatch =
      ((mapGet (watched.foldl seedWatch []) k).map MovieInfo.Rewatch).getD false := by
    simpa using hrw0
  rw [seed_foldl_get] at hrw
  have hproj : (project rec).Rewatch = if rec.Rewatch then "Yes" else "No" := rfl
  cases hf : findLast (fun i => watchKey i == some k) watched with
  | none =>
    rw [hf] at hrw
    simp [mapGet] at hrw
    constructor
    · intro hy
      rw [hproj, hrw] at hy
      exact absurd hy (by decide)
    · rintro ⟨it, hit, _⟩
      cases hit
  | some it =>
    rw [hf] at hrw
    have hp : watchKey it = some k := by
      have hb := findLast_some _ _ _ hf
      simpa using hb
    have hrw2 : rec.Rewatch =
        (((getKey it.movie).map (fun x => mkWatchInfo x.1 x.2.1 x.2.2 it)).map
          MovieInfo.Rewatch).getD false := hrw
    unfold watchKey at hp
    cases hg : getKey it.movie with
    | none =>
      rw [hg] at hp
      cases hp
    | some x =>
      obtain ⟨mv, ids, tid⟩ := x
      rw [hg] at hp
      obtain rfl : tid = k := by simpa using hp
      rw [hg] at hrw2
      simp at hrw2
      rw [hproj, hrw2]
      by_cases hpl : it.plays.getD 0 > 1
      · simp [mkWatchInfo, hpl]
      · simp [mkWatchInfo, hpl]

/-- Witness for C5: `exWatch` has two plays, so the record merged from
`exWatch` and `exRate` is a rewatch. -/
theorem C5_rewatch_flag_witness :
    ((project exC5rec).Rewatch = "Yes") ↔
      ∃ it, findLast (fun i => watchKey i == some (TraktId.num 1)) [exWatch] = some it ∧
        it.plays.getD 0 > 1 :=
  C5_rewatch_flag [exWatch] [exRate] (TraktId.num 1) exC5rec (by decide)

/-- C6: once a record exists in the unified collection, the whole
rating pass preserves its join key, secondary ids, title and year:
merge steps may change only the rating and date bookkeeping fields. -/
theorem C6_identity_frame (rs : List RatingItem) (m : MMap) (k : TraktId)
    (existing : MovieInfo) (h : mapGet m k = some existing) :
    ∃ rec, mapGet (rs.foldl mergeRating m) k = some rec ∧ sameIdentity rec existing :=
  identity_foldl_merge rs m k existing h

/-- Witness for C6: the record seeded by `exWatch` keeps its identity
fields when `exRate` merges into it. -/
theorem C6_identity_frame_witness :
    ∃ rec, mapGet ([exRate].foldl mergeRating [(TraktId.num 1, exWrec)])
        (TraktId.num 1) = some rec ∧ sameIdentity rec exWrec :=
  C6_identity_frame [exRate] [(TraktId.num 1, exWrec)] (TraktId.num 1) exWrec (by decide)

/-- C8: a single malformed entry is skipped without affecting anything
else.  First conjunct: a watch entry with a missing identifier block,
removed from anywhere in the watch input, leaves the whole processing
result unchanged for every rating input.  Second conjunct: likewise
for a rating entry with a missing identifier block or a non-movie
type, for every watch input. -/
theorem C8_malformed_skip :
    (∀ (w1 w2 : List WatchedItem) (ratings : List RatingItem) (bw : WatchedItem),
      watchKey bw = none →
        processTraktData (w1 ++ bw :: w2) ratings =
          processTraktData (w1 ++ w2) ratings) ∧
    (∀ (watched : List WatchedItem) (r1 r2 : List RatingItem) (br : RatingItem),
      ratingKey br = none →
        processTraktData watched (r1 ++ br :: r2) =
          processTraktData watched (r1 ++ r2)) := by
  constructor
  · intro w1 w2 ratings bw hw
    have hseed : (w1 ++ bw :: w2).foldl seedWatch ([] : MMap) =
        (w1 ++ w2).foldl seedWatch [] := by
      rw [List.foldl_append, List.foldl_cons, seedWatch_eq_of_none _ bw hw,
        ← List.foldl_append]
    unfold processTraktData mergeAll
    rw [hseed]
  · intro watched r1 r2 br hr
    have hmerge : (r1 ++ br :: r2).foldl mergeRating (watched.foldl seedWatch []) =
        (r1 ++ r2).foldl mergeRating (watched.foldl seedWatch []) := by
      rw [List.foldl_append, List.foldl_cons, mergeRating_eq_of_none _ br hr,
        ← List.foldl_append]
    unfold processTraktData mergeAll
    rw [hmerge]

/-- Witness for C8: a watch entry with no movie block removed from the
watch input while a rating event is present, and a non-movie rating
entry removed from the rating input while a watch event is present. -/
theorem C8_malformed_skip_witness :
    (processTraktData ([] ++ exBadWatch :: []) [exRate] =
      processTraktData ([] ++ []) [exRate]) ∧
    (processTraktData [exWatch] ([] ++ exBadRate :: []) =
      processTraktData [exWatch] ([] ++ [])) :=
  ⟨C8_malformed_skip.1 [] [] [exRate] exBadWatch (by decide),
    C8_malformed_skip.2 [exWatch] [] [] exBadRate (by decide)⟩

/-- C9: a single event whose identifier block is present but whose
trakt id is falsy (the number `0` or the empty string) is treated
exactly like a missing key.  First conjunct: such a watch event,
removed from anywhere in the watch input, leaves the whole processing
result unchanged for every rating input.  Second conjunct: likewise
for such a rating event, for every watch input. -/
theorem C9_falsy_key_skipped :
    (∀ (w1 w2 : List WatchedItem) (ratings : List RatingItem) (bw : WatchedItem)
      (mw : Movie) (iw : Ids) (tw : TraktId),
      bw.movie = some mw → mw.ids = some iw → iw.trakt = some tw →
        tw.truthy = false →
        processTraktData (w1 ++ bw :: w2) ratings =
          processTraktData (w1 ++ w2) ratings) ∧
    (∀ (watched : List WatchedItem) (r1 r2 : List RatingItem) (br : RatingItem)
      (mr : Movie) (ir : Ids) (tr : TraktId),
      br.movie = some mr → mr.ids = some ir → ir.trakt = some tr →
        tr.truthy = false →
        processTraktData watched (r1 ++ br :: r2) =
          processTraktData watched (r1 ++ r2)) := by
  constructor
  · intro w1 w2 ratings bw mw iw tw hbw hiw htw hfw
    have hw : watchKey bw = none := by
      simp [watchKey, getKey, hbw, hiw, htw, hfw]
    have hseed : (w1 ++ bw :: w2).foldl seedWatch ([] : MMap) =
        (w1 ++ w2).foldl seedWatch [] := by
      rw [List.foldl_append, List.foldl_cons, seedWatch_eq_of_none _ bw hw,
        ← List.foldl_append]
    unfold processTraktData mergeAll
    rw [hseed]
  · intro watched r1 r2 br mr ir tr hbr hir htr hfr
    have hr : ratingKey br = none := by
      simp [ratingKey, getKey, hbr, hir, htr, hfr]
    have hmerge : (r1 ++ br :: r2).foldl mergeRating (watched.foldl seedWatch []) =
        (r1 ++ r2).foldl mergeRating (watched.foldl seedWatch []) := by
      rw [List.foldl_append, List.foldl_cons, mergeRating_eq_of_none _ br hr,
        ← List.foldl_append]
    unfold processTraktData mergeAll
    rw [hmerge]

/-- Witness for C9: a single watch event with the falsy number `0` as
trakt id removed while a rating event is present, and a single rating
event with the falsy empty string as trakt id removed while a watch
event is present. -/
theorem C9_falsy_key_skipped_witness :
    (processTraktData ([] ++ exZeroWatch :: []) [exRate] =
      processTraktData ([] ++ []) [exRate]) ∧
    (processTraktData [exWatch] ([] ++ exEmptyStrRate :: []) =
      processTraktData [exWatch] ([] ++ [])) :=
  ⟨C9_falsy_key_skipped.1 [] [] [exRate] exZeroWatch exZeroMovie exZeroIds
      (TraktId.num 0) rfl rfl rfl (by decide),
    C9_falsy_key_skipped.2 [exWatch] [] [] exEmptyStrRate exEmptyMovie exEmptyIds
      (TraktId.str "") rfl rfl rfl (by decide)⟩

/-- C10: a movie-typed rating event with valid identifier data whose
rating is absent or `0` leaves the record's rating empty, both when it
merges into an existing record and when it creates a new one. -/
theorem C10_zero_rating_empty (m : MMap) (item : RatingItem) (k : TraktId)
    (hk : ratingKey item = some k)
    (hr : item.rating = none ∨ item.rating = some 0) :
    ∃ e, mapGet (mergeRating m item) k = some e ∧ e.Rating10 = none := by
  obtain ⟨ht, mv, ids, hg⟩ := ratingKey_eq_some item k hk
  have hjs : jsOrNat item.rating = none := by
    rcases hr with h | h <;> simp [jsOrNat, h]
  rw [mergeRating_hit _ item k mv ids ht hg]
  cases he : mapGet m k with
  | some e =>
    refine ⟨updateWithRating e item, mapGet_mapSet_self _ _ _, ?_⟩
    rw [updateWithRating_Rating10, hjs]
  | none =>
    refine ⟨mkRatingInfo mv ids k item, mapGet_mapSet_self _ _ _, ?_⟩
    simp [mkRatingInfo, hjs]

/-- Witness for C10 at a rating event whose rating value is `0`,
creating a new record in an empty collection. -/
theorem C10_zero_rating_empty_witness :
    ∃ e, mapGet (mergeRating [] exZeroRate) (TraktId.num 1) = some e ∧
      e.Rating10 = none :=
  C10_zero_rating_empty [] exZeroRate (TraktId.num 1) (by decide) (Or.inr rfl)

/-- Witness for C2 (amended) at the counterexample input: the rating-
only record for key 1 hit by a second rating event with an unparseable
`rated_at`. -/
theorem C2_date_update_amended_witness :
    ∃ e, mapGet (mergeRating [(TraktId.num 1, exC2rec)] exRateInvalid)
        (TraktId.num 1) = some e ∧
      (truthyRatedPrecedence exC2rec exRateInvalid →
        e.WatchedDate = formatDate exRateInvalid.rated_at) ∧
      (¬truthyRatedPrecedence exC2rec exRateInvalid → exC2rec.WatchedDate = "" →
        formatDate exRateInvalid.rated_at ≠ "" →
        e.WatchedDate = formatDate exRateInvalid.rated_at) ∧
      (¬truthyRatedPrecedence exC2rec exRateInvalid →
        ¬(exC2rec.WatchedDate = "" ∧ formatDate exRateInvalid.rated_at ≠ "") →
        e.WatchedDate = exC2rec.WatchedDate) :=
  C2_date_update_amended [(TraktId.num 1, exC2rec)] exRateInvalid
    (TraktId.num 1) exC2rec (by decide) (by decide)

end Trakt
